import Mathlib

/-!
Verification development for the delepwn repository.

Each Python component that the claims concern is shallowly embedded as an
executable Lean definition, translated from the source files under the same
names where possible.  Remote effects (HTTP calls, the filesystem, `time.sleep`)
are represented by explicit oracles passed in as environment records, and the
observable side effects of a run (network calls made, files written or removed,
sleep durations) are returned as data so that theorems can speak about them.
-/

namespace Delepwn

/-! ## Python string primitives

Kernel-reducible implementations of the Python string operations the embedded
code uses (`str.split` on a one-character separator, `str.split(sep, 1)`,
`str.startswith`, `str.endswith`, `in`, `str.replace` on one-character
arguments), defined over the character list of a `String`. -/

/-- Accumulator pass for `pySplit`. -/
def splitCharAux (sep : Char) : List Char → List Char → List (List Char)
  | [], cur => [cur.reverse]
  | c :: rest, cur =>
    if c = sep then cur.reverse :: splitCharAux sep rest []
    else splitCharAux sep rest (c :: cur)

/-- Python `s.split(sep)` for a one-character separator. -/
def pySplit (sep : Char) (s : String) : List String :=
  (splitCharAux sep s.data []).map String.mk

/-- First-occurrence scan for `pySplitOnce`. -/
def splitOnceAux (sep : Char) : List Char → List Char → Option (List Char × List Char)
  | [], _ => none
  | c :: rest, acc =>
    if c = sep then some (acc.reverse, rest) else splitOnceAux sep rest (c :: acc)

/-- Python `s.split(sep, 1)`: one or two fields. -/
def pySplitOnce (sep : Char) (s : String) : List String :=
  match splitOnceAux sep s.data [] with
  | none => [s]
  | some (a, b) => [String.mk a, String.mk b]

/-- Python `s.endswith(suffix)`. -/
def pyEndsWith (s suffix : String) : Bool :=
  List.isSuffixOf suffix.data s.data

/-- Python `s.startswith(p)`. -/
def pyStartsWith (s p : String) : Bool :=
  List.isPrefixOf p.data s.data

/-- Python `c in s` for a single character. -/
def pyContainsChar (s : String) (c : Char) : Bool :=
  s.data.any (fun x => x = c)

/-- Python `s.replace(a, b)` for one-character arguments. -/
def pyReplaceChar (a b : Char) (s : String) : String :=
  String.mk (s.data.map (fun c => if c = a then b else c))

/-- `service_account_path.split('/')[-1]`: the trailing path segment. -/
def lastSegment (path : String) : String :=
  (pySplit '/' path).getLastD ""

/-- `os.path.basename` for the forward-slash paths this tool builds. -/
def basename (path : String) : String :=
  lastSegment path

/-! ## Delegation Prober (`delepwn/core/oauth_enumerator.py`, class `OAuthEnumerator`)

The prober state mirrors the fields of `OAuthEnumerator` that its methods read:
`self.scopes` (the dictionary loaded from the scopes file, as an association
list of scope/description pairs), the key folder contents (`os.listdir`),
and `self.user_emails`.  The two `os.path.exists` checks performed by `run`
are modelled by boolean fields; when `keyFolderExists` is false the directory
listing is empty. -/

structure OAuthState where
  scopesFileExists : Bool
  /-- `self.scopes`: scope → description entries, in file order (dict keys are
  unique; duplicates in the file collapse on load). -/
  scopes : List (String × String)
  keyFolderExists : Bool
  /-- `os.listdir(self.key_folder)`: file names in the key folder. -/
  keyFiles : List String
  /-- `self.user_emails`. -/
  userEmails : List String
  verbose : Bool
  deriving Repr

/-- One (key, user, scope) probe combination, as appended to `jwt_objects`
by `jwt_creator` (the key is identified by its file name; the folder prefix
of `json_path` is constant and omitted). -/
structure Combo where
  path : String
  user : String
  scope : String
  deriving DecidableEq, Repr

/-- Outcome of `creds.refresh(Request())` for one combination: success, or one
of the exception classes distinguished by `token_validator`. -/
inductive RefreshOutcome
  | ok
  | credsErr   -- `DefaultCredentialsError`
  | refreshErr -- `RefreshError` (expired / rejected delegated token)
  | otherErr   -- any other exception
  deriving DecidableEq, Repr

/-- Environment oracles for a probe run: whether
`service_account.Credentials.from_service_account_file` succeeds on a key file
(`keyParse`), the outcome of the token refresh for a combination, and the HTTP
status of the `tokeninfo` introspection request (an introspection request that
raises is observationally a non-200 status: nothing is recorded either way). -/
structure ProbeEnv where
  keyParse : String → Bool
  refresh : Combo → RefreshOutcome
  introspectStatus : Combo → Nat

/-- `jwt_creator` innermost loop: `for scope in self.scopes.keys()`.  The
credential object for the current key file is constructed inside this loop, so
a key file that fails to parse raises here, before any network call. -/
def scopesLoop (kp : String → Bool) (k u : String) :
    List (String × String) → Except Unit (List Combo)
  | [] => Except.ok []
  | (s, _) :: rest =>
    if kp k then
      (scopesLoop kp k u rest).map (fun cs => ⟨k, u, s⟩ :: cs)
    else
      Except.error ()

/-- `jwt_creator` middle loop: `for user_email in self.user_emails`. -/
def usersLoop (kp : String → Bool) (k : String) (scopes : List (String × String)) :
    List String → Except Unit (List Combo)
  | [] => Except.ok []
  | u :: rest => do
    let cs ← scopesLoop kp k u scopes
    let more ← usersLoop kp k scopes rest
    Except.ok (cs ++ more)

/-- `jwt_creator` outer loop: `for json_file in os.listdir(self.key_folder)`. -/
def keysLoop (kp : String → Bool) (users : List String) (scopes : List (String × String)) :
    List String → Except Unit (List Combo)
  | [] => Except.ok []
  | k :: rest => do
    let cs ← usersLoop kp k scopes users
    let more ← keysLoop kp users scopes rest
    Except.ok (cs ++ more)

/-- `OAuthEnumerator.jwt_creator`: builds the full cross product of key files,
user emails and scopes.  There is no exception handling in the Python method,
so a key file whose credentials cannot be constructed aborts the whole
enumeration (`Except.error`). -/
def jwt_creator (st : OAuthState) (kp : String → Bool) : Except Unit (List Combo) :=
  keysLoop kp st.userEmails st.scopes st.keyFiles

/-- Observable outcome of `token_validator`: the accumulated
`self.valid_results` dictionary (association list, insertion ordered),
`self.confirmed_dwd_keys`, and counters of the network calls made and of the
progress-bar updates (`pbar.update(1)` runs in a `finally`, once per
combination). -/
structure ValidatorResult where
  validResults : List (String × List String) := []
  confirmed : List String := []
  refreshCalls : Nat := 0
  introspectCalls : Nat := 0
  processed : Nat := 0
  deriving DecidableEq, Repr

/-- `self.valid_results.setdefault(json_path, []).append(scope)`: append `v` to
the entry for `k`, creating the entry at the end of the dict when absent. -/
def setdefaultAppend (m : List (String × List String)) (k v : String) :
    List (String × List String) :=
  match m with
  | [] => [(k, [v])]
  | (k0, vs) :: rest =>
    if k0 = k then (k0, vs ++ [v]) :: rest else (k0, vs) :: setdefaultAppend rest k v

/-- Association-list lookup, mirroring Python dict access. -/
def lookupList (m : List (String × List String)) (k : String) : Option (List String) :=
  match m with
  | [] => none
  | (k0, vs) :: rest => if k0 = k then some vs else lookupList rest k

/-- Body of `token_validator`'s loop for a single combination: refresh, then
introspect on refresh success, record the scope on HTTP 200; every exception
class is caught here and the `finally` advances the progress bar. -/
def token_validator_step (env : ProbeEnv) (acc : ValidatorResult) (c : Combo) :
    ValidatorResult :=
  match env.refresh c with
  | RefreshOutcome.ok =>
    if env.introspectStatus c = 200 then
      { validResults := setdefaultAppend acc.validResults c.path c.scope
        confirmed :=
          if c.path ∈ acc.confirmed then acc.confirmed else acc.confirmed ++ [c.path]
        refreshCalls := acc.refreshCalls + 1
        introspectCalls := acc.introspectCalls + 1
        processed := acc.processed + 1 }
    else
      { acc with
          refreshCalls := acc.refreshCalls + 1
          introspectCalls := acc.introspectCalls + 1
          processed := acc.processed + 1 }
  | _ =>
    { acc with
        refreshCalls := acc.refreshCalls + 1
        processed := acc.processed + 1 }

/-- `OAuthEnumerator.token_validator` over a prepared `jwt_objects` list. -/
def token_validator (env : ProbeEnv) (combos : List Combo) : ValidatorResult :=
  combos.foldl (token_validator_step env) {}

/-- A combination counts as a confirmed delegation exactly when the refresh
succeeded and the introspection endpoint answered HTTP 200. -/
def comboSuccess (env : ProbeEnv) (c : Combo) : Bool :=
  match env.refresh c with
  | RefreshOutcome.ok => if env.introspectStatus c = 200 then true else false
  | _ => false

/-- The number of entries for scope `s` recorded under key path `p`. -/
def scopeCount (r : ValidatorResult) (p s : String) : Nat :=
  ((lookupList r.validResults p).getD []).count s

/-- The linkage invariant between the two accumulators of `token_validator`:
a key path is in `confirmed_dwd_keys` exactly when `valid_results` holds a
non-empty scope list for it. -/
def validatorInv (r : ValidatorResult) : Prop :=
  ∀ q, q ∈ r.confirmed ↔
    ∃ ds, lookupList r.validResults q = some ds ∧ ds ≠ []

/-- `OAuthEnumerator.total_jwt_combinations`:
`num_scopes * num_keys * num_emails`. -/
def total_jwt_combinations (st : OAuthState) : Nat :=
  st.scopes.length * st.keyFiles.length * st.userEmails.length

/-- `OAuthEnumerator.run`: the three precondition checks (scopes file present,
scopes loaded, key folder present and non-empty) each return early without any
network call; otherwise `jwt_creator` then `token_validator` run. -/
def runProber (st : OAuthState) (env : ProbeEnv) : Except Unit ValidatorResult :=
  if ¬ st.scopesFileExists then Except.ok {}
  else if st.scopes.isEmpty then Except.ok {}
  else if ¬ st.keyFolderExists ∨ st.keyFiles.isEmpty then Except.ok {}
  else (jwt_creator st env.keyParse).map (token_validator env)

/-! ## Key Lifecycle Manager (`delepwn/core/key_manager.py`, class `PrivateKeyCreator`)

`check_existing_key` / `create_service_account_key` model provisioning;
`delete_keys_without_dwd` models the cleanup/reconcile step.  The filesystem
and the remote IAM API are represented by oracles in the environment records,
and the side effects (remote calls, files written, files removed) are returned
as data. -/

/-- The decoded contents of a local service-account key file, restricted to
the fields the embedded code reads: `client_email` (absent models
`key_data.get('client_email')` returning `None`) plus an opaque remainder of
the key material so distinct key files with the same email stay distinct. -/
structure KeyJson where
  client_email : Option String
  material : String
  deriving DecidableEq, Repr

/-- Outcome of the remote `keys().create(...)` call: the decoded key payload on
success, the `Precondition check failed.` error when the account already holds
the maximum key count, or any other exception. -/
inductive CreateOutcome
  | ok (kd : KeyJson)
  | preconditionFailed
  | otherErr
  deriving Repr

/-- Environment for provisioning: the key-folder listing with each file's
parse result (`none` models an unreadable file or invalid JSON), whether a
credential built from a key file refreshes successfully
(`creds.refresh(Request())` with the read-only scope), whether `os.remove`
succeeds on a file, and the remote key-creation outcome per account path. -/
structure KeyStoreEnv where
  files : List (String × Option KeyJson)
  refreshOk : KeyJson → Bool
  removeOk : String → Bool
  createOutcome : String → CreateOutcome

/-- Loop body of `check_existing_key` over the key-folder listing: skip
unreadable files, and for a file whose `client_email` matches the target
account, reuse it when it refreshes, otherwise remove it and keep scanning.
Returns the `True`/`False` result together with the files removed. -/
def checkExistingGo (env : KeyStoreEnv) (saEmail : String) :
    List (String × Option KeyJson) → Bool × List String
  | [] => (false, [])
  | (_, none) :: rest => checkExistingGo env saEmail rest
  | (n, some kd) :: rest =>
    if kd.client_email = some saEmail then
      if env.refreshOk kd then (true, [])
      else
        let r := checkExistingGo env saEmail rest
        if env.removeOk n then (r.1, n :: r.2) else r
    else checkExistingGo env saEmail rest

/-- `PrivateKeyCreator.check_existing_key`. -/
def check_existing_key (env : KeyStoreEnv) (saPath : String) : Bool × List String :=
  checkExistingGo env (lastSegment saPath) env.files

/-- Observable effects of `create_service_account_key`: how many remote
`keys().create` calls were issued, the local files written (name and decoded
payload), and the local files removed while scanning for an existing key. -/
structure CreateResult where
  remoteCreateCalls : Nat
  writes : List (String × KeyJson)
  removedLocal : List String
  deriving Repr

/-- `file_name = service_account_path.replace('/', '_').replace(':', '_')`. -/
def sanitizedKeyFileName (saPath : String) : String :=
  pyReplaceChar ':' '_' (pyReplaceChar '/' '_' saPath) ++ ".json"

/-- `PrivateKeyCreator.create_service_account_key`: reuse a valid existing key
when one is found, otherwise call the remote creation API and persist the
decoded payload; creation failures are reported and yield no file. -/
def create_service_account_key (env : KeyStoreEnv) (saPath : String) : CreateResult :=
  let c := check_existing_key env saPath
  if c.1 then
    { remoteCreateCalls := 0, writes := [], removedLocal := c.2 }
  else
    match env.createOutcome saPath with
    | CreateOutcome.ok kd =>
      { remoteCreateCalls := 1
        writes := [(sanitizedKeyFileName saPath, kd)]
        removedLocal := c.2 }
    | _ =>
      { remoteCreateCalls := 1, writes := [], removedLocal := c.2 }

/-- Fields read from a key file during cleanup via `key_data.get(...)`
(`none` models a missing field, i.e. a falsy `.get` result). -/
structure KeyMeta where
  private_key_id : Option String
  project_id : Option String
  client_email : Option String
  deriving DecidableEq, Repr

/-- Environment for `delete_keys_without_dwd`: the key-folder listing, each
file's parsed metadata (`none` models a read or JSON failure), and whether the
remote `keys().delete` and the local `os.remove` succeed. -/
structure CleanupEnv where
  keyFiles : List String
  fileData : String → Option KeyMeta
  remoteDeleteOk : String → Bool
  localDeleteOk : String → Bool

/-- `f"projects/{project_id}/serviceAccounts/{client_email}/keys/{key_id}"`. -/
def fullKeyName (pid ce kid : String) : String :=
  "projects/" ++ pid ++ "/serviceAccounts/" ++ ce ++ "/keys/" ++ kid

/-- Outcome of the cleanup step: the files still on disk afterwards, the
summary counters printed at the end, the remote key names successfully
deleted, and the files whose per-key block raised (`Failed to remove key`). -/
structure CleanupResult where
  remaining : List String
  totalKeys : Nat
  dwdKeys : Nat
  deletedKeys : Nat
  remoteDeleted : List String
  failures : List String
  deriving DecidableEq, Repr

/-- Per-file loop of `delete_keys_without_dwd`.  A file whose basename is in
the confirmed list is kept.  Otherwise the file is read, the remote key is
deleted when all three identifying fields are present, and then the local file
is removed — all inside one `try`, so a remote-deletion failure (or a read
failure) skips the local `os.remove` and leaves the file on disk. -/
def cleanupGo (env : CleanupEnv) (dwdFilenames : List String) :
    List String → CleanupResult
  | [] =>
    { remaining := [], totalKeys := 0, dwdKeys := 0, deletedKeys := 0
      remoteDeleted := [], failures := [] }
  | f :: fs =>
    let r := cleanupGo env dwdFilenames fs
    if f ∈ dwdFilenames then
      { r with remaining := f :: r.remaining, dwdKeys := r.dwdKeys + 1 }
    else
      match env.fileData f with
      | none =>
        { r with remaining := f :: r.remaining, failures := f :: r.failures }
      | some meta =>
        match meta.private_key_id, meta.project_id, meta.client_email with
        | some kid, some pid, some ce =>
          let keyName := fullKeyName pid ce kid
          if env.remoteDeleteOk keyName then
            if env.localDeleteOk f then
              { r with deletedKeys := r.deletedKeys + 1
                       remoteDeleted := keyName :: r.remoteDeleted }
            else
              { r with remaining := f :: r.remaining
                       remoteDeleted := keyName :: r.remoteDeleted
                       failures := f :: r.failures }
          else
            { r with remaining := f :: r.remaining, failures := f :: r.failures }
        | _, _, _ =>
          if env.localDeleteOk f then
            { r with deletedKeys := r.deletedKeys + 1 }
          else
            { r with remaining := f :: r.remaining, failures := f :: r.failures }

/-- `PrivateKeyCreator.delete_keys_without_dwd`: the confirmed key paths are
reduced to basenames (`dwd_filenames`), every listed key file is processed, and
`total_keys = len(key_files)` is reported. -/
def delete_keys_without_dwd (env : CleanupEnv) (confirmed : List String) :
    CleanupResult :=
  let r := cleanupGo env (confirmed.map basename) env.keyFiles
  { r with totalKeys := env.keyFiles.length }

/-- No per-key cleanup error occurs for file `f`: it is readable, its local
removal succeeds, and when all three identifying fields are present the remote
deletion call succeeds as well. -/
def cleanupOkFor (env : CleanupEnv) (f : String) : Prop :=
  (env.fileData f).isSome = true ∧ env.localDeleteOk f = true ∧
  ∀ meta kid pid ce, env.fileData f = some meta →
    meta.private_key_id = some kid → meta.project_id = some pid →
    meta.client_email = some ce →
    env.remoteDeleteOk (fullKeyName pid ce kid) = true

/-! ## Service Account & Project Enumerator (`src/delepwn/gcp_sa_enum.py`,
class `ServiceAccountEnumerator`)

IAM policies are modelled as binding lists of `(role, members)` pairs, and the
`check_permission` role-introspection call (does the role's permission set
contain `iam.serviceAccountKeys.create`; lookup errors yield `False`) as an
oracle `rolePerm`. -/

/-- `member.split(':', 1)[1]`, defined when the member string has a colon. -/
def afterFirstColon (m : String) : String :=
  (pySplitOnce ':' m).getD 1 ""

/-- One service account as returned by `serviceAccounts().list`, together with
the bindings of its own IAM policy (`get_service_account_roles` input). -/
structure SAccount where
  name : String
  email : String
  uniqueId : String
  saBindings : List (String × List String)
  deriving DecidableEq, Repr

/-- One project with its project-level IAM policy bindings and its service
accounts. -/
structure ProjectEnv where
  projectId : String
  projBindings : List (String × List String)
  accounts : List SAccount
  deriving DecidableEq, Repr

/-- Enumeration environment: the accessible projects, the resolved caller
email (`self.user_email`), and the `check_permission` result per role. -/
structure EnumEnv where
  projects : List ProjectEnv
  userEmail : String
  rolePerm : String → Bool

/-- Member matching in `get_project_roles`: a member containing a colon
matches by the part after the first colon, a bare member (such as `allUsers`)
by the whole string. -/
def memberMatchesProj (userEmail m : String) : Bool :=
  if pyContainsChar m ':' then afterFirstColon m = userEmail else m = userEmail

/-- `ServiceAccountEnumerator.get_project_roles`: one role occurrence appended
per matching member of each binding. -/
def get_project_roles (userEmail : String) (bindings : List (String × List String)) :
    List String :=
  bindings.foldl
    (fun acc rb =>
      acc ++ rb.2.foldl
        (fun a m => a ++ (if memberMatchesProj userEmail m then [rb.1] else [])) [])
    []

/-- Member loop of `get_service_account_roles`:
`_, member_identifier = member.split(':', 1)` raises `ValueError` on a member
without a colon, which aborts enumeration (`Except.error`). -/
def saMembersRoles (userEmail role : String) : List String → Except Unit (List String)
  | [] => Except.ok []
  | m :: rest =>
    if pyContainsChar m ':' then do
      let r ← saMembersRoles userEmail role rest
      Except.ok ((if afterFirstColon m = userEmail then [role] else []) ++ r)
    else Except.error ()

/-- `ServiceAccountEnumerator.get_service_account_roles` over the account's
policy bindings. -/
def get_service_account_roles (userEmail : String) :
    List (String × List String) → Except Unit (List String)
  | [] => Except.ok []
  | rb :: rest => do
    let r ← saMembersRoles userEmail rb.1 rb.2
    let more ← get_service_account_roles userEmail rest
    Except.ok (r ++ more)

/-- One line of `enumerate_service_accounts` output: the account together with
whether it was marked a provisioning candidate (details printed and
`create_service_account_key` invoked).  The project is carried along so the
theorems can name the bindings that produced the decision. -/
structure EnumEntry where
  project : ProjectEnv
  account : SAccount
  candidate : Bool
  deriving DecidableEq, Repr

/-- Account loop of `enumerate_service_accounts` inside one project:
`all_roles = list(set(project_roles + service_account_roles))` and the account
is a candidate iff `any(self.check_permission(role) for role in all_roles)`.
Returns the entries and the account names passed to
`create_service_account_key`. -/
def enumAccounts (env : EnumEnv) (p : ProjectEnv) :
    List SAccount → Except Unit (List EnumEntry × List String)
  | [] => Except.ok ([], [])
  | a :: rest => do
    let projRoles := get_project_roles env.userEmail p.projBindings
    let saRoles ← get_service_account_roles env.userEmail a.saBindings
    let allRoles := (projRoles ++ saRoles).dedup
    let cand := allRoles.any env.rolePerm
    let (es, cs) ← enumAccounts env p rest
    Except.ok (⟨p, a, cand⟩ :: es, (if cand then [a.name] else []) ++ cs)

/-- Project loop of `enumerate_service_accounts`. -/
def enumProjects (env : EnumEnv) :
    List ProjectEnv → Except Unit (List EnumEntry × List String)
  | [] => Except.ok ([], [])
  | p :: rest => do
    let (es1, cs1) ← enumAccounts env p p.accounts
    let (es2, cs2) ← enumProjects env rest
    Except.ok (es1 ++ es2, cs1 ++ cs2)

/-- `ServiceAccountEnumerator.enumerate_service_accounts`. -/
def enumerate_service_accounts (env : EnumEnv) :
    Except Unit (List EnumEntry × List String) :=
  enumProjects env env.projects

/-! ## Domain/User Enumerator (`delepwn/core/domain_users.py`,
class `DomainUserEnumerator`)

The IAM policies fetched per project are modelled as a list (per project) of
bindings, each binding being its member list (only `binding['members']` is
read). -/

/-- `member.split(':')[1]`: the segment between the first and second colon. -/
def emailOfMember (m : String) : String :=
  (pySplit ':' m).getD 1 ""

/-- `email.split('@')[1]`: the segment between the first and second `@`. -/
def domainOf (email : String) : String :=
  (pySplit '@' email).getD 1 ""

/-- Member loop of `list_unique_domain_users` for one binding, including the
`break` that leaves the member loop as soon as a new domain is recorded:
`unique_domains[domain] = email; break`. -/
def membersScan (acc : List (String × String)) : List String → List (String × String)
  | [] => acc
  | m :: rest =>
    if pyStartsWith m "user:" then
      let email := emailOfMember m
      if pyContainsChar email '@' ∧ ¬ pyEndsWith email ".gserviceaccount.com" then
        let domain := domainOf email
        if domain ∈ acc.map Prod.fst then membersScan acc rest
        else acc ++ [(domain, email)]
      else membersScan acc rest
    else membersScan acc rest

/-- `DomainUserEnumerator.list_unique_domain_users`: fold the member scan over
every binding of every accessible project's IAM policy; the resulting
insertion-ordered dict maps each domain to its recorded representative. -/
def list_unique_domain_users (policies : List (List (List String))) :
    List (String × String) :=
  policies.foldl (fun acc bindings => bindings.foldl membersScan acc) []

/-- The recorded entry `de` (domain, email) is what the member scan derives
from an eligible binding member `m`: a `user:`-typed member whose parsed email
contains `@` and does not end in the service-account domain suffix. -/
def entryFromMember (m : String) (de : String × String) : Prop :=
  pyStartsWith m "user:" = true ∧ emailOfMember m = de.2 ∧ domainOf de.2 = de.1 ∧
  pyContainsChar de.2 '@' = true ∧ pyEndsWith de.2 ".gserviceaccount.com" = false

/-! ## Rate-Limited Call Wrapper (`delepwn/utils/api.py`, `handle_api_ratelimit`)

The wrapped call is modelled as a function from the attempt index to its
result.  `time.sleep` durations are returned as a list (each retry logs the
same computed duration it sleeps). -/

/-- Result of one invocation of the wrapped call: a value, an `HttpError` with
its response status, or any other exception (which the wrapper does not
catch). -/
inductive AttemptResult (α : Type)
  | ok (a : α)
  | httpErr (status : Nat)
  | otherErr
  deriving DecidableEq, Repr

/-- Outcome of the wrapper: the wrapped call's value; an immediately
propagated `HttpError` (non-429) or other exception; or `bareRaise`, the
`raise` statement after the retry loop — a bare `raise` with no active
exception, which Python 3 surfaces as `RuntimeError: No active exception to
re-raise` rather than any rate-limit-specific error. -/
inductive WrapOutcome (α : Type)
  | success (a : α)
  | propagatedHttp (status : Nat)
  | propagatedOther
  | bareRaise
  deriving DecidableEq, Repr

/-- Retry loop of `handle_api_ratelimit`: `for attempt in range(max_retries)`
with `sleep_time = backoff_factor ** (attempt + 1)` on status 429; any other
`HttpError` status and any non-`HttpError` exception propagate at once.
Returns the outcome and the sleep durations in order. -/
def wrapperGo {α : Type} (f : Nat → AttemptResult α) :
    Nat → Nat → WrapOutcome α × List Nat
  | _, 0 => (WrapOutcome.bareRaise, [])
  | attempt, fuel + 1 =>
    match f attempt with
    | AttemptResult.ok a => (WrapOutcome.success a, [])
    | AttemptResult.httpErr status =>
      if status = 429 then
        let r := wrapperGo f (attempt + 1) fuel
        (r.1, 2 ^ (attempt + 1) :: r.2)
      else (WrapOutcome.propagatedHttp status, [])
    | AttemptResult.otherErr => (WrapOutcome.propagatedOther, [])

/-- `handle_api_ratelimit` applied to a call: `max_retries = 5`,
`backoff_factor = 2`. -/
def handle_api_ratelimit {α : Type} (f : Nat → AttemptResult α) :
    WrapOutcome α × List Nat :=
  wrapperGo f 0 5

/-! ## Concrete instances

Closed prober states, environments and policies used by the witness and
counterexample theorems below. -/

/-- A prober state whose target-user list is empty (scopes and keys present). -/
def stUsersEmpty : OAuthState :=
  { scopesFileExists := true, scopes := [("s", "desc")], keyFolderExists := true
    keyFiles := ["k.json"], userEmails := [], verbose := false }

/-- A probe environment in which every combination would succeed. -/
def envAllOk : ProbeEnv :=
  { keyParse := fun _ => true, refresh := fun _ => RefreshOutcome.ok
    introspectStatus := fun _ => 200 }

/-- A prober state with one invalid and one valid key file, one user and one
scope. -/
def stMixedKeys : OAuthState :=
  { scopesFileExists := true, scopes := [("s", "desc")], keyFolderExists := true
    keyFiles := ["bad.json", "good.json"], userEmails := ["u@d.com"], verbose := false }

/-- Credential construction succeeds only for `good.json`. -/
def kpGoodOnly : String → Bool := fun k => k = "good.json"

/-- A prober state with one key, two target users and one scope. -/
def stTwoUsers : OAuthState :=
  { scopesFileExists := true, scopes := [("s", "desc")], keyFolderExists := true
    keyFiles := ["k.json"], userEmails := ["u1@d.com", "u2@d.com"], verbose := false }

/-- Cleanup environment for the reconciliation counterexample: one readable
unconfirmed key file with complete fields whose remote deletion fails while a
local `os.remove` would succeed. -/
def envCleanupRemoteFail : CleanupEnv :=
  { keyFiles := ["sa.json"]
    fileData := fun _ =>
      some { private_key_id := some "kid", project_id := some "pid"
             client_email := some "sa@pid.iam.gserviceaccount.com" }
    remoteDeleteOk := fun _ => false
    localDeleteOk := fun _ => true }

/-- Cleanup environment for the best-effort counterexample (same failure
shape, separate instance for the C3 theorem). -/
def envCleanupRemoteFail3 : CleanupEnv :=
  { keyFiles := ["victim.json"]
    fileData := fun _ =>
      some { private_key_id := some "kid3", project_id := some "pid3"
             client_email := some "v@pid3.iam.gserviceaccount.com" }
    remoteDeleteOk := fun _ => false
    localDeleteOk := fun _ => true }

/-- Cleanup environment in which every per-key operation succeeds. -/
def envCleanupAllOk : CleanupEnv :=
  { keyFiles := ["keep.json", "drop.json"]
    fileData := fun _ =>
      some { private_key_id := some "kid", project_id := some "pid"
             client_email := some "sa@pid.iam.gserviceaccount.com" }
    remoteDeleteOk := fun _ => true
    localDeleteOk := fun _ => true }

/-- The decoded contents of an existing, still-valid local key file. -/
def kdExisting : KeyJson :=
  { client_email := some "sa@p.iam.gserviceaccount.com", material := "m1" }

/-- Key-store environment holding one valid key file for the target account;
the remote creation oracle would fail, which must never be reached. -/
def envStoreReuse : KeyStoreEnv :=
  { files := [("old.json", some kdExisting)]
    refreshOk := fun _ => true
    removeOk := fun _ => true
    createOutcome := fun _ => CreateOutcome.otherErr }

/-- A service account whose own policy has no bindings. -/
def saPlain : SAccount :=
  { name := "projects/p1/serviceAccounts/sa1@p1.iam.gserviceaccount.com"
    email := "sa1@p1.iam.gserviceaccount.com", uniqueId := "111", saBindings := [] }

/-- A project binding the caller to `roles/sakeys` at project level. -/
def projWithRole : ProjectEnv :=
  { projectId := "p1"
    projBindings := [("roles/sakeys", ["user:caller@d.com"])]
    accounts := [saPlain] }

/-- Enumeration environment: one project, one account, and only
`roles/sakeys` carries the key-creation permission. -/
def envEnum : EnumEnv :=
  { projects := [projWithRole], userEmail := "caller@d.com"
    rolePerm := fun r => r = "roles/sakeys" }

/-- The wrapped call that fails with HTTP 429 twice and then returns 42. -/
def callTwice429 : Nat → AttemptResult Nat :=
  fun i => if i < 2 then AttemptResult.httpErr 429 else AttemptResult.ok 42

/-! ## Lemmas about the Delegation Prober -/

theorem keysLoop_users_nil (kp : String → Bool) (scopes : List (String × String))
    (ks : List String) : keysLoop kp [] scopes ks = Except.ok [] := by
  induction ks with
  | nil => rfl
  | cons k ks ih =>
    simp [keysLoop, usersLoop, ih, Bind.bind, Except.bind]

theorem token_validator_step_processed (env : ProbeEnv) (acc : ValidatorResult)
    (c : Combo) : (token_validator_step env acc c).processed = acc.processed + 1 := by
  unfold token_validator_step
  split
  · split <;> rfl
  · rfl

theorem token_validator_foldl_processed (env : ProbeEnv) (combos : List Combo)
    (acc : ValidatorResult) :
    (combos.foldl (token_validator_step env) acc).processed =
      acc.processed + combos.length := by
  induction combos generalizing acc with
  | nil => simp
  | cons c cs ih =>
    simp only [List.foldl_cons, ih, token_validator_step_processed, List.length_cons]
    omega

/-- C1: `total_jwt_combinations` is the product of the key-file, scope and
target-user counts, and whenever any of the three factors is zero the prober's
`run` completes without a single credential refresh or introspection call. -/
theorem total_jwt_combinations_correct (st : OAuthState) (env : ProbeEnv) :
    total_jwt_combinations st =
      st.keyFiles.length * st.scopes.length * st.userEmails.length ∧
    (st.keyFiles.length = 0 ∨ st.scopes.length = 0 ∨ st.userEmails.length = 0 →
      ∃ r, runProber st env = Except.ok r ∧ r.refreshCalls = 0 ∧ r.introspectCalls = 0) := by
  constructor
  · unfold total_jwt_combinations
    ring
  · intro h
    unfold runProber
    by_cases h1 : st.scopesFileExists
    · by_cases h2 : st.scopes.isEmpty
      · refine ⟨{}, ?_, rfl, rfl⟩
        simp [h1, h2]
      · by_cases h3 : ¬ st.keyFolderExists ∨ st.keyFiles.isEmpty
        · refine ⟨{}, ?_, rfl, rfl⟩
          rcases h3 with h3 | h3
          · have h3b : st.keyFolderExists = false := by
              simpa using h3
            simp [h1, h2, h3b]
          · simp [h1, h2, h3]
        · have husers : st.userEmails = [] := by
            rcases h with h | h | h
            · exact absurd (List.isEmpty_iff.mpr (List.length_eq_zero.mp h))
                (fun hemp => h3 (Or.inr hemp))
            · exact absurd (List.isEmpty_iff.mpr (List.length_eq_zero.mp h)) h2
            · exact List.length_eq_zero.mp h
          refine ⟨{}, ?_, rfl, rfl⟩
          have h3a : st.scopesFileExists = true := h1
          simp only [h3a, not_true, if_false, h2, if_false, h3, if_false]
          unfold jwt_creator
          rw [husers, keysLoop_users_nil]
          rfl
    · exact ⟨{}, by simp [h1], rfl, rfl⟩

/-- Witness for C1 at a state with one key, one scope and zero target users. -/
theorem total_jwt_combinations_correct_witness :
    ∃ r, runProber stUsersEmpty envAllOk = Except.ok r ∧
      r.refreshCalls = 0 ∧ r.introspectCalls = 0 :=
  (total_jwt_combinations_correct stUsersEmpty envAllOk).2 (Or.inr (Or.inr rfl))

/-! ## Per-combination failure handling (C6) -/

theorem scopesLoop_error (kp : String → Bool) (k u : String)
    (scopes : List (String × String)) (hs : scopes ≠ []) (hk : kp k = false) :
    scopesLoop kp k u scopes = Except.error () := by
  cases scopes with
  | nil => exact absurd rfl hs
  | cons s rest => simp [scopesLoop, hk]

theorem usersLoop_error (kp : String → Bool) (k : String)
    (scopes : List (String × String)) (users : List String)
    (hu : users ≠ []) (hs : scopes ≠ []) (hk : kp k = false) :
    usersLoop kp k scopes users = Except.error () := by
  cases users with
  | nil => exact absurd rfl hu
  | cons u rest =>
    simp [usersLoop, scopesLoop_error kp k u scopes hs hk, Bind.bind, Except.bind]

theorem keysLoop_error (kp : String → Bool) (users : List String)
    (scopes : List (String × String)) (ks : List String)
    (hu : users ≠ []) (hs : scopes ≠ []) (hbad : ∃ k ∈ ks, kp k = false) :
    keysLoop kp users scopes ks = Except.error () := by
  induction ks with
  | nil => simp at hbad
  | cons k rest ih =>
    rcases hbad with ⟨k0, hk0, hbad0⟩
    rcases List.mem_cons.mp hk0 with h | h
    · subst h
      simp [keysLoop, usersLoop_error kp k0 scopes users hu hs hbad0,
        Bind.bind, Except.bind]
    · have herr := ih ⟨k0, h, hbad0⟩
      unfold keysLoop
      cases husers : usersLoop kp k scopes users with
      | error e => simp [husers, Bind.bind, Except.bind]
      | ok cs => simp [husers, herr, Bind.bind, Except.bind]

/-- C6 (amended): exceptions raised while validating a single combination are
caught and the loop reaches every remaining combination — the validator always
processes all `|combos|` entries whatever the per-combination refresh and
introspection outcomes are — but invalid or missing key material is not a
per-key condition: when any key file in a non-degenerate state fails
credential construction, `jwt_creator` raises and the scan aborts as a
whole. -/
theorem token_validator_per_combination (env : ProbeEnv) (combos : List Combo)
    (st : OAuthState) (kp : String → Bool)
    (hu : st.userEmails ≠ []) (hs : st.scopes ≠ [])
    (hbad : ∃ k ∈ st.keyFiles, kp k = false) :
    (token_validator env combos).processed = combos.length ∧
    jwt_creator st kp = Except.error () := by
  constructor
  · unfold token_validator
    rw [token_validator_foldl_processed]
    simp
  · exact keysLoop_error kp st.userEmails st.scopes st.keyFiles hu hs hbad

/-- Witness for C6 at the mixed-key state and a two-element combination list
whose first combination fails its refresh. -/
theorem token_validator_per_combination_witness :
    (token_validator envAllOk
        [⟨"k.json", "u1@d.com", "s"⟩, ⟨"k.json", "u2@d.com", "s"⟩]).processed = 2 ∧
    jwt_creator stMixedKeys kpGoodOnly = Except.error () :=
  token_validator_per_combination envAllOk
    [⟨"k.json", "u1@d.com", "s"⟩, ⟨"k.json", "u2@d.com", "s"⟩]
    stMixedKeys kpGoodOnly (by decide) (by decide) ⟨"bad.json", by decide, by decide⟩

/-- C6 counterexample: in a state holding one unparsable and one valid key
file the whole probe run aborts (`jwt_creator` raises out of `run`), so the
invalid key material was not terminal for that key only — the valid key's
combinations were never probed. -/
theorem invalid_key_aborts_scan :
    kpGoodOnly "good.json" = true ∧
    runProber stMixedKeys { envAllOk with keyParse := kpGoodOnly } =
      Except.error () := by
  constructor
  · decide
  · rfl

/-! ## Shape of the delegation result map (C10) -/

theorem lookupList_setdefaultAppend (m : List (String × List String)) (k v p : String) :
    lookupList (setdefaultAppend m k v) p =
      if p = k then some (((lookupList m k).getD []) ++ [v]) else lookupList m p := by
  induction m with
  | nil =>
    by_cases hpk : p = k
    · subst hpk
      simp [setdefaultAppend, lookupList]
    · simp [setdefaultAppend, lookupList, hpk, Ne.symm hpk]
  | cons e rest ih =>
    obtain ⟨k0, vs⟩ := e
    by_cases hk0 : k0 = k
    · subst hk0
      by_cases hp0 : k0 = p
      · subst hp0
        simp [setdefaultAppend, lookupList]
      · simp [setdefaultAppend, lookupList, hp0, Ne.symm hp0]
    · by_cases hp0 : k0 = p
      · subst hp0
        simp [setdefaultAppend, lookupList, hk0, Ne.symm hk0]
      · simp [setdefaultAppend, lookupList, hk0, hp0, ih]

theorem token_validator_step_scopeCount (env : ProbeEnv) (acc : ValidatorResult)
    (c : Combo) (p s : String) :
    scopeCount (token_validator_step env acc c) p s =
      scopeCount acc p s +
        (if comboSuccess env c = true ∧ c.path = p ∧ c.scope = s then 1 else 0) := by
  unfold scopeCount token_validator_step comboSuccess
  cases h : env.refresh c
  case ok =>
    by_cases h200 : env.introspectStatus c = 200
    · simp only [h, h200, if_true]
      rw [lookupList_setdefaultAppend]
      by_cases hp : p = c.path
      · subst hp
        by_cases hsc : c.scope = s
        · subst hsc
          simp [List.count_append]
        · simp [List.count_append, List.count_singleton', hsc]
      · simp [hp, Ne.symm hp]
    · simp [h, h200]
  all_goals simp [h]

theorem token_validator_foldl_scopeCount (env : ProbeEnv) (combos : List Combo)
    (acc : ValidatorResult) (p s : String) :
    scopeCount (combos.foldl (token_validator_step env) acc) p s =
      scopeCount acc p s +
        (combos.filter (fun c =>
          comboSuccess env c && decide (c.path = p) && decide (c.scope = s))).length := by
  induction combos generalizing acc with
  | nil => simp
  | cons c cs ih =>
    simp only [List.foldl_cons, List.filter_cons]
    rw [ih, token_validator_step_scopeCount]
    by_cases hc : comboSuccess env c = true ∧ c.path = p ∧ c.scope = s
    · have : (comboSuccess env c && decide (c.path = p) && decide (c.scope = s)) = true := by
        simp [hc.1, hc.2.1, hc.2.2]
      simp only [this, if_pos hc, if_true, List.length_cons]
      omega
    · have : (comboSuccess env c && decide (c.path = p) && decide (c.scope = s)) = false := by
        by_contra hb
        have hb2 : (comboSuccess env c && decide (c.path = p) && decide (c.scope = s)) = true := by
          revert hb
          cases comboSuccess env c && decide (c.path = p) && decide (c.scope = s) <;> simp
        simp only [Bool.and_eq_true, decide_eq_true_eq] at hb2
        exact hc ⟨hb2.1.1, hb2.1.2, hb2.2⟩
      simp only [this, if_neg hc, Bool.false_eq_true, if_false]
      omega

theorem token_validator_step_inv (env : ProbeEnv) (acc : ValidatorResult)
    (c : Combo) (h : validatorInv acc) :
    validatorInv (token_validator_step env acc c) := by
  intro q
  unfold token_validator_step
  cases hr : env.refresh c
  case ok =>
    by_cases h200 : env.introspectStatus c = 200
    · simp only [h200, if_true]
      rw [lookupList_setdefaultAppend]
      by_cases hq : q = c.path
      · subst hq
        constructor
        · intro _
          exact ⟨(lookupList acc.validResults c.path).getD [] ++ [c.scope],
            by simp, by simp⟩
        · intro _
          by_cases hc : c.path ∈ acc.confirmed
          · simp [hc]
          · simp [hc]
      · have hmem : (q ∈ (if c.path ∈ acc.confirmed then acc.confirmed
              else acc.confirmed ++ [c.path])) ↔ q ∈ acc.confirmed := by
          by_cases hc : c.path ∈ acc.confirmed
          · simp [hc]
          · simp only [hc, if_false]
            rw [List.mem_append]
            simp [List.mem_singleton, hq]
        simp only [hq, if_false]
        rw [show (if (c.path ∈ acc.confirmed) then acc.confirmed
            else acc.confirmed ++ [c.path]) =
            (if c.path ∈ acc.confirmed then acc.confirmed
            else acc.confirmed ++ [c.path]) from rfl] at hmem
        exact hmem.trans (h q)
    · simp only [h200, if_false]
      exact h q
  all_goals exact h q

theorem token_validator_foldl_inv (env : ProbeEnv) (combos : List Combo)
    (acc : ValidatorResult) (h : validatorInv acc) :
    validatorInv (combos.foldl (token_validator_step env) acc) := by
  induction combos generalizing acc with
  | nil => exact h
  | cons c cs ih => exact ih _ (token_validator_step_inv env acc c h)

theorem token_validator_inv (env : ProbeEnv) (combos : List Combo) :
    validatorInv (token_validator env combos) := by
  unfold token_validator
  refine token_validator_foldl_inv env combos {} ?_
  intro q
  simp [lookupList]

/-- C10 (amended): the result map records one scope entry per validated
(key, scope, user) combination — the entry count for scope `s` under key `p`
equals the number of successful combinations with that key and scope, so the
same scope appears once per target user for which it validated (duplicates
arise with several users, rather than the list being duplicate-free) — and a
key path is in the confirmed-key list exactly when the result map holds a
non-empty scope list for it. -/
theorem valid_results_shape (env : ProbeEnv) (combos : List Combo) (p s : String) :
    (p ∈ (token_validator env combos).confirmed ↔
      ∃ ds, lookupList (token_validator env combos).validResults p = some ds ∧ ds ≠ []) ∧
    scopeCount (token_validator env combos) p s =
      (combos.filter (fun c =>
        comboSuccess env c && decide (c.path = p) && decide (c.scope = s))).length := by
  constructor
  · exact token_validator_inv env combos p
  · have h := token_validator_foldl_scopeCount env combos {} p s
    unfold token_validator
    rw [h]
    simp [scopeCount, lookupList]

/-- C10 counterexample: with one key, one scope and two target users that all
validate, the full run records the scope twice under the key — the
confirmed-scope collection is not duplicate-free. -/
theorem valid_results_duplicate_scope :
    runProber stTwoUsers envAllOk =
      Except.ok { validResults := [("k.json", ["s", "s"])], confirmed := ["k.json"],
                  refreshCalls := 2, introspectCalls := 2, processed := 2 } ∧
    ¬ (["s", "s"] : List String).Nodup := by
  constructor
  · rfl
  · decide

/-! ## Cleanup / reconciliation (C2, C3) -/

theorem cleanupGo_no_failures (env : CleanupEnv) (dwd : List String)
    (fs : List String) (hok : ∀ f ∈ fs, f ∉ dwd → cleanupOkFor env f) :
    (cleanupGo env dwd fs).remaining = fs.filter (fun f => decide (f ∈ dwd)) ∧
    (cleanupGo env dwd fs).dwdKeys = (fs.filter (fun f => decide (f ∈ dwd))).length ∧
    (cleanupGo env dwd fs).deletedKeys =
      (fs.filter (fun f => decide (f ∉ dwd))).length ∧
    (cleanupGo env dwd fs).failures = [] := by
  induction fs with
  | nil => simp [cleanupGo]
  | cons f fs ih =>
    have hok2 : ∀ g ∈ fs, g ∉ dwd → cleanupOkFor env g :=
      fun g hg => hok g (List.mem_cons_of_mem f hg)
    obtain ⟨h1, h2, h3, h4⟩ := ih hok2
    by_cases hf : f ∈ dwd
    · simp [cleanupGo, hf, h1, h2, h3, h4, List.filter_cons]
    · obtain ⟨hread, hlocal, hremote⟩ := hok f (List.mem_cons_self f fs) hf
      cases hfd : env.fileData f with
      | none =>
        rw [hfd] at hread
        simp at hread
      | some meta =>
        cases hkid : meta.private_key_id with
        | none =>
          simp [cleanupGo, hf, hfd, hkid, hlocal, h1, h2, h3, h4, List.filter_cons]
        | some kid =>
          cases hpid : meta.project_id with
          | none =>
            simp [cleanupGo, hf, hfd, hkid, hpid, hlocal, h1, h2, h3, h4,
              List.filter_cons]
          | some pid =>
            cases hce : meta.client_email with
            | none =>
              simp [cleanupGo, hf, hfd, hkid, hpid, hce, hlocal, h1, h2, h3, h4,
                List.filter_cons]
            | some ce =>
              have hr := hremote meta kid pid ce hfd hkid hpid hce
              simp [cleanupGo, hf, hfd, hkid, hpid, hce, hr, hlocal, h1, h2, h3, h4,
                List.filter_cons]

theorem cleanupGo_remoteDeleted (env : CleanupEnv) (dwd : List String)
    (fs : List String) :
    ∀ g ∈ fs, g ∉ dwd →
    (∀ f ∈ fs, f ∉ dwd → cleanupOkFor env f) →
    ∀ meta kid pid ce, env.fileData g = some meta →
      meta.private_key_id = some kid → meta.project_id = some pid →
      meta.client_email = some ce →
      fullKeyName pid ce kid ∈ (cleanupGo env dwd fs).remoteDeleted := by
  induction fs with
  | nil =>
    intro g hg
    simp at hg
  | cons f fs ih =>
    intro g hg hgd hok meta kid pid ce hm hk hp hc
    have hok2 : ∀ x ∈ fs, x ∉ dwd → cleanupOkFor env x :=
      fun x hx => hok x (List.mem_cons_of_mem f hx)
    rcases List.mem_cons.mp hg with hgf | hgf
    · subst hgf
      obtain ⟨hread, hlocal, hremote⟩ := hok g (List.mem_cons_self g fs) hgd
      have hr := hremote meta kid pid ce hm hk hp hc
      simp [cleanupGo, hgd, hm, hk, hp, hc, hr, hlocal]
    · have hmem := ih g hgf hgd hok2 meta kid pid ce hm hk hp hc
      by_cases hf : f ∈ dwd
      · simpa [cleanupGo, hf] using hmem
      · obtain ⟨hread, hlocal, hremote⟩ := hok f (List.mem_cons_self f fs) hf
        cases hfd : env.fileData f with
        | none =>
          rw [hfd] at hread
          simp at hread
        | some meta2 =>
          cases hkid2 : meta2.private_key_id with
          | none => simpa [cleanupGo, hf, hfd, hkid2, hlocal] using hmem
          | some kid2 =>
            cases hpid2 : meta2.project_id with
            | none => simpa [cleanupGo, hf, hfd, hkid2, hpid2, hlocal] using hmem
            | some pid2 =>
              cases hce2 : meta2.client_email with
              | none =>
                simpa [cleanupGo, hf, hfd, hkid2, hpid2, hce2, hlocal] using hmem
              | some ce2 =>
                have hr2 := hremote meta2 kid2 pid2 ce2 hfd hkid2 hpid2 hce2
                simp [cleanupGo, hf, hfd, hkid2, hpid2, hce2, hr2, hlocal, hmem]

/-- C2 (amended): provided no per-key cleanup error occurs (every unconfirmed
key file is readable, its remote deletion — attempted when the identifying
fields are present — succeeds, and its local removal succeeds), the cleanup
step retains exactly the key files whose basename is in the confirmed set,
removes every other key file locally, deletes the remote key object
`projects/{pid}/serviceAccounts/{email}/keys/{kid}` of every unconfirmed file
whose three identifying fields are present, reports no per-key failures, and
reports `{total, retained, deleted}` counts; when a per-key error does occur,
the affected unconfirmed file stays on disk (see the counterexample). -/
theorem delete_keys_without_dwd_reconciles (env : CleanupEnv) (confirmed : List String)
    (hok : ∀ f ∈ env.keyFiles, f ∉ confirmed.map basename → cleanupOkFor env f) :
    (delete_keys_without_dwd env confirmed).remaining =
      env.keyFiles.filter (fun f => decide (f ∈ confirmed.map basename)) ∧
    (∀ f ∈ (delete_keys_without_dwd env confirmed).remaining,
      f ∈ confirmed.map basename) ∧
    (delete_keys_without_dwd env confirmed).totalKeys = env.keyFiles.length ∧
    (delete_keys_without_dwd env confirmed).dwdKeys =
      (env.keyFiles.filter (fun f => decide (f ∈ confirmed.map basename))).length ∧
    (delete_keys_without_dwd env confirmed).deletedKeys =
      (env.keyFiles.filter (fun f => decide (f ∉ confirmed.map basename))).length ∧
    (delete_keys_without_dwd env confirmed).failures = [] ∧
    (∀ f ∈ env.keyFiles, f ∉ confirmed.map basename →
      ∀ meta kid pid ce, env.fileData f = some meta →
        meta.private_key_id = some kid → meta.project_id = some pid →
        meta.client_email = some ce →
        fullKeyName pid ce kid ∈ (delete_keys_without_dwd env confirmed).remoteDeleted) := by
  obtain ⟨h1, h2, h3, h4⟩ :=
    cleanupGo_no_failures env (confirmed.map basename) env.keyFiles hok
  unfold delete_keys_without_dwd
  refine ⟨h1, ?_, rfl, h2, h3, h4, ?_⟩
  · intro f hf
    simp only [h1] at hf
    simpa using List.of_mem_filter hf
  · intro f hf hfd meta kid pid ce hm hk hp hc
    exact cleanupGo_remoteDeleted env (confirmed.map basename) env.keyFiles
      f hf hfd hok meta kid pid ce hm hk hp hc

/-- Witness for C2 with one confirmed and one unconfirmed key file and an
environment in which every per-key operation succeeds: the unconfirmed file is
gone locally and its composed remote key name was deleted remotely. -/
theorem delete_keys_without_dwd_reconciles_witness :
    (delete_keys_without_dwd envCleanupAllOk ["keep.json"]).remaining = ["keep.json"] ∧
    (delete_keys_without_dwd envCleanupAllOk ["keep.json"]).deletedKeys = 1 ∧
    (delete_keys_without_dwd envCleanupAllOk ["keep.json"]).failures = [] ∧
    fullKeyName "pid" "sa@pid.iam.gserviceaccount.com" "kid" ∈
      (delete_keys_without_dwd envCleanupAllOk ["keep.json"]).remoteDeleted := by
  have h := delete_keys_without_dwd_reconciles envCleanupAllOk ["keep.json"]
    (fun f _ _ => ⟨rfl, rfl, fun meta kid pid ce _ _ _ _ => rfl⟩)
  refine ⟨by rw [h.1]; decide, by rw [h.2.2.2.2.1]; decide, h.2.2.2.2.2.1, ?_⟩
  exact h.2.2.2.2.2.2 "drop.json" (by decide) (by decide)
    { private_key_id := some "kid", project_id := some "pid"
      client_email := some "sa@pid.iam.gserviceaccount.com" }
    "kid" "pid" "sa@pid.iam.gserviceaccount.com" rfl rfl rfl rfl

/-- C2 counterexample: an unconfirmed key file whose remote deletion fails
stays on disk, so the claimed unconditional postcondition (every unconfirmed
file removed locally) is false. -/
theorem cleanup_unconfirmed_key_survives :
    (delete_keys_without_dwd envCleanupRemoteFail []).remaining = ["sa.json"] ∧
    (delete_keys_without_dwd envCleanupRemoteFail []).deletedKeys = 0 ∧
    "sa.json" ∉ (([] : List String).map basename) := by
  exact ⟨rfl, rfl, by decide⟩

/-- C3: at a concrete unconfirmed key whose remote `keys().delete` call fails,
the per-key exception handler also skips the local deletion — the local file
stays on disk and is counted as a failure, even though its local removal
would have succeeded — contradicting the claimed best-effort independence of
local deletion. -/
theorem cleanup_remote_failure_skips_local_delete :
    (delete_keys_without_dwd envCleanupRemoteFail3 []).failures = ["victim.json"] ∧
    (delete_keys_without_dwd envCleanupRemoteFail3 []).remaining = ["victim.json"] ∧
    (delete_keys_without_dwd envCleanupRemoteFail3 []).deletedKeys = 0 ∧
    envCleanupRemoteFail3.localDeleteOk "victim.json" = true :=
  ⟨rfl, rfl, rfl, rfl⟩

/-! ## Idempotent key provisioning (C4) -/

theorem checkExistingGo_found (env : KeyStoreEnv) (saEmail : String)
    (files : List (String × Option KeyJson))
    (h : ∃ e ∈ files, ∃ kd, e.2 = some kd ∧ kd.client_email = some saEmail ∧
      env.refreshOk kd = true) :
    (checkExistingGo env saEmail files).1 = true := by
  induction files with
  | nil => simp at h
  | cons e rest ih =>
    obtain ⟨n, opt⟩ := e
    rcases h with ⟨e0, he0, kd, hkd, hce, hro⟩
    rcases List.mem_cons.mp he0 with h0 | h0
    · subst h0
      simp only [] at hkd
      subst hkd
      simp [checkExistingGo, hce, hro]
    · have hrest := ih ⟨e0, h0, kd, hkd, hce, hro⟩
      cases opt with
      | none => simpa [checkExistingGo] using hrest
      | some kd2 =>
        by_cases hm : kd2.client_email = some saEmail
        · by_cases hr2 : env.refreshOk kd2 = true
          · simp [checkExistingGo, hm, hr2]
          · have hrf : env.refreshOk kd2 = false := by
              revert hr2
              cases env.refreshOk kd2 <;> simp
            cases hrem : env.removeOk n <;>
              simp [checkExistingGo, hm, hrf, hrem, hrest]
        · simp [checkExistingGo, hm, hrest]

/-- C4: when the local key store holds a readable key file whose embedded
`client_email` matches the target service account and whose credentials still
refresh successfully, `create_service_account_key` issues no remote
key-creation call and writes no local file — the existing key is reused. -/
theorem create_service_account_key_idempotent (env : KeyStoreEnv) (saPath : String)
    (h : ∃ e ∈ env.files, ∃ kd, e.2 = some kd ∧
      kd.client_email = some (lastSegment saPath) ∧ env.refreshOk kd = true) :
    (create_service_account_key env saPath).remoteCreateCalls = 0 ∧
    (create_service_account_key env saPath).writes = [] := by
  have hfound := checkExistingGo_found env (lastSegment saPath) env.files h
  unfold create_service_account_key check_existing_key
  simp [hfound]

/-- Witness for C4 at a store holding one valid key for the target account. -/
theorem create_service_account_key_idempotent_witness :
    (create_service_account_key envStoreReuse
      "projects/p/serviceAccounts/sa@p.iam.gserviceaccount.com").remoteCreateCalls = 0 ∧
    (create_service_account_key envStoreReuse
      "projects/p/serviceAccounts/sa@p.iam.gserviceaccount.com").writes = [] :=
  create_service_account_key_idempotent envStoreReuse
    "projects/p/serviceAccounts/sa@p.iam.gserviceaccount.com"
    ⟨("old.json", some kdExisting), by decide, kdExisting, rfl, by decide, rfl⟩

/-! ## Domain/User enumeration (C7) -/

theorem membersScan_nodup (ms : List String) (acc : List (String × String))
    (h : (acc.map Prod.fst).Nodup) : ((membersScan acc ms).map Prod.fst).Nodup := by
  induction ms generalizing acc with
  | nil => exact h
  | cons m rest ih =>
    unfold membersScan
    by_cases h1 : pyStartsWith m "user:" = true
    · rw [if_pos h1]
      by_cases h2 : pyContainsChar (emailOfMember m) '@' = true ∧
          ¬ pyEndsWith (emailOfMember m) ".gserviceaccount.com" = true
      · rw [if_pos h2]
        by_cases h3 : domainOf (emailOfMember m) ∈ acc.map Prod.fst
        · rw [if_pos h3]
          exact ih acc h
        · rw [if_neg h3]
          simp only [List.map_append, List.map_cons, List.map_nil]
          rw [List.nodup_append]
          exact ⟨h, List.nodup_singleton _, by simpa using h3⟩
      · rw [if_neg h2]
        exact ih acc h
    · rw [if_neg h1]
      exact ih acc h

theorem membersScan_mem (ms : List String) (acc : List (String × String))
    (de : String × String) (h : de ∈ membersScan acc ms) :
    de ∈ acc ∨ ∃ m ∈ ms, entryFromMember m de := by
  induction ms generalizing acc with
  | nil => exact Or.inl h
  | cons m rest ih =>
    unfold membersScan at h
    by_cases h1 : pyStartsWith m "user:" = true
    · rw [if_pos h1] at h
      by_cases h2 : pyContainsChar (emailOfMember m) '@' = true ∧
          ¬ pyEndsWith (emailOfMember m) ".gserviceaccount.com" = true
      · rw [if_pos h2] at h
        by_cases h3 : domainOf (emailOfMember m) ∈ acc.map Prod.fst
        · rw [if_pos h3] at h
          rcases ih acc h with h4 | ⟨m2, hm2, he⟩
          · exact Or.inl h4
          · exact Or.inr ⟨m2, List.mem_cons_of_mem m hm2, he⟩
        · rw [if_neg h3] at h
          rcases List.mem_append.mp h with h4 | h4
          · exact Or.inl h4
          · have hde := List.mem_singleton.mp h4
            subst hde
            have hends : pyEndsWith (emailOfMember m) ".gserviceaccount.com" = false := by
              cases hE : pyEndsWith (emailOfMember m) ".gserviceaccount.com"
              · rfl
              · exact absurd hE h2.2
            exact Or.inr ⟨m, List.mem_cons_self m rest, h1, rfl, rfl, h2.1, hends⟩
      · rw [if_neg h2] at h
        rcases ih acc h with h4 | ⟨m2, hm2, he⟩
        · exact Or.inl h4
        · exact Or.inr ⟨m2, List.mem_cons_of_mem m hm2, he⟩
    · rw [if_neg h1] at h
      rcases ih acc h with h4 | ⟨m2, hm2, he⟩
      · exact Or.inl h4
      · exact Or.inr ⟨m2, List.mem_cons_of_mem m hm2, he⟩

theorem bindingsFold_nodup (bs : List (List String)) (acc : List (String × String))
    (h : (acc.map Prod.fst).Nodup) :
    (((bs.foldl membersScan acc)).map Prod.fst).Nodup := by
  induction bs generalizing acc with
  | nil => exact h
  | cons b bs ih => exact ih _ (membersScan_nodup b acc h)

theorem bindingsFold_mem (bs : List (List String)) (acc : List (String × String))
    (de : String × String) (h : de ∈ bs.foldl membersScan acc) :
    de ∈ acc ∨ ∃ b ∈ bs, ∃ m ∈ b, entryFromMember m de := by
  induction bs generalizing acc with
  | nil => exact Or.inl h
  | cons b bs ih =>
    rcases ih _ h with h1 | ⟨b2, hb2, m, hm, he⟩
    · rcases membersScan_mem b acc de h1 with h2 | ⟨m, hm, he⟩
      · exact Or.inl h2
      · exact Or.inr ⟨b, List.mem_cons_self b bs, m, hm, he⟩
    · exact Or.inr ⟨b2, List.mem_cons_of_mem b hb2, m, hm, he⟩

theorem policiesFold_nodup (ps : List (List (List String)))
    (acc : List (String × String)) (h : (acc.map Prod.fst).Nodup) :
    ((ps.foldl (fun a bs => bs.foldl membersScan a) acc).map Prod.fst).Nodup := by
  induction ps generalizing acc with
  | nil => exact h
  | cons p ps ih => exact ih _ (bindingsFold_nodup p acc h)

theorem policiesFold_mem (ps : List (List (List String)))
    (acc : List (String × String)) (de : String × String)
    (h : de ∈ ps.foldl (fun a bs => bs.foldl membersScan a) acc) :
    de ∈ acc ∨ ∃ bs ∈ ps, ∃ b ∈ bs, ∃ m ∈ b, entryFromMember m de := by
  induction ps generalizing acc with
  | nil => exact Or.inl h
  | cons p ps ih =>
    rcases ih _ h with h1 | ⟨bs2, hbs2, b, hb, m, hm, he⟩
    · rcases bindingsFold_mem p acc de h1 with h2 | ⟨b, hb, m, hm, he⟩
      · exact Or.inl h2
      · exact Or.inr ⟨p, List.mem_cons_self p ps, b, hb, m, hm, he⟩
    · exact Or.inr ⟨bs2, List.mem_cons_of_mem p hbs2, b, hb, m, hm, he⟩

/-- C7 (amended): `list_unique_domain_users` records at most one
representative per domain (the map's domains are duplicate-free), every entry
maps a domain to an eligible email of that domain parsed from a `user:`-typed
binding member, and no recorded email ends in `.gserviceaccount.com`; however,
the scan of a binding's member list stops as soon as one new domain is
recorded (`break`), so a `user:` member with a not-yet-represented domain can
be skipped when it follows a newly recorded member inside the same binding
(see the counterexample). -/
theorem list_unique_domain_users_sound (policies : List (List (List String))) :
    ((list_unique_domain_users policies).map Prod.fst).Nodup ∧
    ∀ de ∈ list_unique_domain_users policies,
      domainOf de.2 = de.1 ∧ pyEndsWith de.2 ".gserviceaccount.com" = false ∧
      ∃ bindings ∈ policies, ∃ b ∈ bindings, ∃ m ∈ b,
        pyStartsWith m "user:" = true ∧ emailOfMember m = de.2 := by
  constructor
  · exact policiesFold_nodup policies [] (by simp)
  · intro de hde
    rcases policiesFold_mem policies [] de hde with h | ⟨bs, hbs, b, hb, m, hm, he⟩
    · simp at h
    · exact ⟨he.2.2.1, he.2.2.2.2, bs, hbs, b, hb, m, hm, he.1, he.2.1⟩

/-- Witness for C7 at a single policy with one `user:` member. -/
theorem list_unique_domain_users_sound_witness :
    ((list_unique_domain_users [[["user:w@wd.com"]]]).map Prod.fst).Nodup ∧
    (domainOf "w@wd.com" = "wd.com" ∧
      pyEndsWith "w@wd.com" ".gserviceaccount.com" = false ∧
      ∃ bindings ∈ [[["user:w@wd.com"]]], ∃ b ∈ bindings, ∃ m ∈ b,
        pyStartsWith m "user:" = true ∧ emailOfMember m = "w@wd.com") := by
  have h := list_unique_domain_users_sound [[["user:w@wd.com"]]]
  exact ⟨h.1, h.2 ("wd.com", "w@wd.com") (by decide)⟩

/-- C7 counterexample: in a policy with a single binding listing two `user:`
members of distinct domains, the `break` after recording the first member
skips the second, so domain `d2.com` — though present as a `user:` member with
no representative yet — yields no entry. -/
theorem domain_scan_skips_unrepresented_member :
    list_unique_domain_users [[["user:a@d1.com", "user:b@d2.com"]]] =
      [("d1.com", "a@d1.com")] ∧
    pyStartsWith "user:b@d2.com" "user:" = true ∧
    domainOf (emailOfMember "user:b@d2.com") = "d2.com" ∧
    "d2.com" ∉ (list_unique_domain_users [[["user:a@d1.com", "user:b@d2.com"]]]).map
      Prod.fst := by
  refine ⟨by decide, by decide, by decide, by decide⟩

/-! ## Candidate marking in service-account enumeration (C5) -/

theorem enumAccounts_spec (env : EnumEnv) (p : ProjectEnv) (accs : List SAccount)
    (res : List EnumEntry × List String)
    (h : enumAccounts env p accs = Except.ok res) :
    (∀ e ∈ res.1, e.project = p ∧ ∃ saRoles,
      get_service_account_roles env.userEmail e.account.saBindings = Except.ok saRoles ∧
      (e.candidate = true ↔
        ∃ r ∈ get_project_roles env.userEmail p.projBindings ++ saRoles,
          env.rolePerm r = true)) ∧
    res.1.map (fun e => e.account) = accs ∧
    res.2 = (res.1.filter (fun e => e.candidate)).map (fun e => e.account.name) := by
  induction accs generalizing res with
  | nil =>
    unfold enumAccounts at h
    injection h with h
    subst h
    simp
  | cons a rest ih =>
    unfold enumAccounts at h
    cases hsa : get_service_account_roles env.userEmail a.saBindings with
    | error e =>
      rw [hsa] at h
      simp [Bind.bind, Except.bind] at h
    | ok saRoles =>
      rw [hsa] at h
      cases hrec : enumAccounts env p rest with
      | error e =>
        rw [hrec] at h
        simp [Bind.bind, Except.bind] at h
      | ok r2 =>
        rw [hrec] at h
        simp only [Bind.bind, Except.bind] at h
        injection h with h
        subst h
        obtain ⟨ih1, ih2, ih3⟩ := ih r2 hrec
        refine ⟨?_, ?_, ?_⟩
        · intro e he
          rcases List.mem_cons.mp he with he | he
          · subst he
            refine ⟨rfl, saRoles, hsa, ?_⟩
            simp only []
            rw [List.any_eq_true]
            constructor
            · rintro ⟨r, hr, hp⟩
              exact ⟨r, List.mem_dedup.mp hr, hp⟩
            · rintro ⟨r, hr, hp⟩
              exact ⟨r, List.mem_dedup.mpr hr, hp⟩
          · exact ih1 e he
        · simp only [List.map_cons, ih2]
        · rw [List.filter_cons]
          by_cases hc : (get_project_roles env.userEmail p.projBindings ++
              saRoles).dedup.any env.rolePerm = true
          · simp [hc, ih3]
          · have hcf : ((get_project_roles env.userEmail p.projBindings ++
                saRoles).dedup.any env.rolePerm) = false := by
              revert hc
              cases (get_project_roles env.userEmail p.projBindings ++
                saRoles).dedup.any env.rolePerm <;> simp
            simp [hcf, ih3]

theorem enumProjects_spec (env : EnumEnv) (ps : List ProjectEnv)
    (res : List EnumEntry × List String)
    (h : enumProjects env ps = Except.ok res) :
    (∀ e ∈ res.1, ∃ saRoles,
      get_service_account_roles env.userEmail e.account.saBindings = Except.ok saRoles ∧
      (e.candidate = true ↔
        ∃ r ∈ get_project_roles env.userEmail e.project.projBindings ++ saRoles,
          env.rolePerm r = true)) ∧
    res.1.map (fun e => (e.project, e.account)) =
      ps.flatMap (fun q => q.accounts.map (fun a => (q, a))) ∧
    res.2 = (res.1.filter (fun e => e.candidate)).map (fun e => e.account.name) := by
  induction ps generalizing res with
  | nil =>
    unfold enumProjects at h
    injection h with h
    subst h
    simp
  | cons p ps ih =>
    unfold enumProjects at h
    cases h1 : enumAccounts env p p.accounts with
    | error e =>
      rw [h1] at h
      simp [Bind.bind, Except.bind] at h
    | ok r1 =>
      rw [h1] at h
      cases h2 : enumProjects env ps with
      | error e =>
        rw [h2] at h
        simp [Bind.bind, Except.bind] at h
      | ok r2 =>
        rw [h2] at h
        simp only [Bind.bind, Except.bind] at h
        injection h with h
        subst h
        obtain ⟨ha1, ha2, ha3⟩ := enumAccounts_spec env p p.accounts r1 h1
        obtain ⟨hb1, hb2, hb3⟩ := ih r2 h2
        refine ⟨?_, ?_, ?_⟩
        · intro e he
          rcases List.mem_append.mp he with he | he
          · obtain ⟨hproj, s, hs, hiff⟩ := ha1 e he
            refine ⟨s, hs, ?_⟩
            rw [hproj]
            exact hiff
          · exact hb1 e he
        · have hmap : List.map (fun e => (e.project, e.account)) r1.1 =
              p.accounts.map (fun a => (p, a)) := by
            have hcongr : ∀ e ∈ r1.1, (fun e => (e.project, e.account)) e =
                (fun e => (p, e.account)) e := by
              intro e he
              simp [(ha1 e he).1]
            rw [List.map_congr_left hcongr, ← ha2, List.map_map]
            rfl
          simp only [List.map_append, List.flatMap_cons, hmap, hb2]
        · rw [List.filter_append, List.map_append, ha3, hb3]

/-- C5: whenever `enumerate_service_accounts` completes, every visible service
account of every accessible project produces exactly one output entry, the
entry is marked as a provisioning candidate (details printed and key creation
invoked) if and only if some role among the account's effective roles — the
project-level bindings plus the account-level bindings matching the caller —
passes the key-creation permission check, and the key-provisioning calls are
exactly the candidates' account names. -/
theorem enumerate_service_accounts_candidate_iff (env : EnumEnv)
    (entries : List EnumEntry) (calls : List String)
    (h : enumerate_service_accounts env = Except.ok (entries, calls)) :
    (∀ e ∈ entries, ∃ saRoles,
      get_service_account_roles env.userEmail e.account.saBindings = Except.ok saRoles ∧
      (e.candidate = true ↔
        ∃ r ∈ get_project_roles env.userEmail e.project.projBindings ++ saRoles,
          env.rolePerm r = true)) ∧
    entries.map (fun e => (e.project, e.account)) =
      env.projects.flatMap (fun q => q.accounts.map (fun a => (q, a))) ∧
    calls = (entries.filter (fun e => e.candidate)).map (fun e => e.account.name) :=
  enumProjects_spec env env.projects (entries, calls) h

/-- Witness for C5 at a one-project, one-account environment whose caller
holds `roles/sakeys` at project level. -/
theorem enumerate_service_accounts_candidate_iff_witness :
    [saPlain.name] = (([⟨projWithRole, saPlain, true⟩] : List EnumEntry).filter
      (fun e => e.candidate)).map (fun e => e.account.name) :=
  (enumerate_service_accounts_candidate_iff envEnum [⟨projWithRole, saPlain, true⟩]
    [saPlain.name] rfl).2.2

/-! ## Rate-limit wrapper (C8, C9) -/

theorem wrapperGo_backoff {α : Type} (f : Nat → AttemptResult α) (a : α) :
    ∀ (N k fuel : Nat), N < fuel →
    (∀ i, i < N → f (k + i) = AttemptResult.httpErr 429) →
    f (k + N) = AttemptResult.ok a →
    wrapperGo f k fuel =
      (WrapOutcome.success a, (List.range N).map (fun i => 2 ^ (k + i + 1))) := by
  intro N
  induction N with
  | zero =>
    intro k fuel hfuel hfail hok
    cases fuel with
    | zero => omega
    | succ fuel =>
      unfold wrapperGo
      rw [show k + 0 = k from rfl] at hok
      rw [hok]
      simp
  | succ N ih =>
    intro k fuel hfuel hfail hok
    cases fuel with
    | zero => omega
    | succ fuel =>
      have h0 : f k = AttemptResult.httpErr 429 := by
        have h00 := hfail 0 (Nat.succ_pos N)
        simpa using h00
      have hrec := ih (k + 1) fuel (by omega)
        (fun i hi => by
          have hi1 := hfail (i + 1) (by omega)
          have harr : k + (i + 1) = k + 1 + i := by omega
          rw [harr] at hi1
          exact hi1)
        (by
          have harr : k + 1 + N = k + (N + 1) := by omega
          rw [harr]
          exact hok)
      simp only [wrapperGo, h0, hrec]
      rw [if_pos trivial]
      rw [List.range_succ_eq_map, List.map_cons, List.map_map]
      congr 1
      congr 1
      apply List.map_congr_left
      intro i _
      simp only [Function.comp_apply]
      congr 1
      omega

/-- C8: a wrapped call that fails with HTTP 429 exactly `N` times
(`N < max_retries = 5`) and then succeeds makes the wrapper return the
successful result after sleeping exactly `N` times, with durations
`2^1, 2^2, ..., 2^N` seconds in order (each retry logs the same computed
duration it sleeps). -/
theorem handle_api_ratelimit_backoff {α : Type} (f : Nat → AttemptResult α) (a : α)
    (N : Nat) (hN : N < 5)
    (hfail : ∀ i, i < N → f i = AttemptResult.httpErr 429)
    (hok : f N = AttemptResult.ok a) :
    handle_api_ratelimit f =
      (WrapOutcome.success a, (List.range N).map (fun i => 2 ^ (i + 1))) := by
  unfold handle_api_ratelimit
  have h := wrapperGo_backoff f a N 0 5 hN
    (fun i hi => by simpa using hfail i hi)
    (by simpa using hok)
  simpa using h

/-- Witness for C8 with two throttled attempts followed by success. -/
theorem handle_api_ratelimit_backoff_witness :
    handle_api_ratelimit callTwice429 = (WrapOutcome.success 42, [2, 4]) := by
  have h := handle_api_ratelimit_backoff callTwice429 42 2 (by omega)
    (fun i hi => by
      unfold callTwice429
      rw [if_pos hi])
    (by
      unfold callTwice429
      rw [if_neg (by omega)])
  rw [h]
  decide

/-- C9: a non-throttling `HttpError` propagates immediately with no retry and
no sleep, but when all five attempts return HTTP 429 the wrapper ends in the
`raise` after the loop — a bare `raise` with no active exception, which in
Python 3 is a generic `RuntimeError: No active exception to re-raise`, not a
rate-limit-specific error. -/
theorem ratelimit_exhaustion_bare_raise :
    handle_api_ratelimit (fun _ => (AttemptResult.httpErr 429 : AttemptResult Nat)) =
      (WrapOutcome.bareRaise, [2, 4, 8, 16, 32]) ∧
    handle_api_ratelimit (fun _ => (AttemptResult.httpErr 500 : AttemptResult Nat)) =
      (WrapOutcome.propagatedHttp 500, []) := by
  exact ⟨by decide, by decide⟩

end Delepwn
